import Mathlib

/-!
Verification development for the `sectool` crawler backend
(`sectool/service/backend_crawler.go`) and the reflected-parameter finder
of the `llm-security-toolbox` repository.

Go values are embedded as follows: byte slices become `List Nat`, Go
strings become Lean `String` (compared with decidable equality), Go `int`
counters that are only ever incremented and compared against non-negative
bounds become `Nat`, and the `urlsQueued` counter (which the code
decrements and which can in principle go negative) becomes `Int`.
`sync.Map` instances become association lists.  Time values are threaded
as abstract `Nat` parameters.
-/

namespace Crawler


/-- The allow-list of response content-type prefixes,
from `allowedContentTypes` in `backend_crawler.go`. -/
def allowedContentTypes : List String :=
  ["text/", "application/json", "application/xml",
   "application/javascript", "application/x-javascript"]

/-- Character-wise lowercasing of a string (Go `strings.ToLower`,
restricted to the per-rune mapping, which is what the source relies on for
ASCII media types). -/
def lowerStr (s : String) : String := ⟨s.data.map Char.toLower⟩

/-- `isAllowedContentType` from `backend_crawler.go`: the empty content
type is allowed, otherwise the lowercased type must have one of the
allow-listed prefixes (Go `strings.HasPrefix`, embedded as list prefix on
the character lists). -/
def isAllowedContentType (ct : String) : Bool :=
  if ct = "" then true
  else allowedContentTypes.any (fun a => a.data.isPrefixOf (lowerStr ct).data)

/-- `readBodyLimited` from `backend_crawler.go`: read up to `limit` bytes
into a buffer (`io.LimitReader` + `ReadFrom`), then drain and count the
remainder (`io.Copy(io.Discard, r)`).  Returns the limited body, the true
total size, and whether truncation occurred (`remaining > 0`). -/
def readBodyLimited (r : List Nat) (limit : Nat) : List Nat × Nat × Bool :=
  let buffered := r.take limit
  let remaining := r.length - buffered.length
  (buffered, buffered.length + remaining, decide (0 < remaining))

/-- `capturingTransport.captureResponse` from `backend_crawler.go`, body
part: with `maxBodyBytes <= 0` the whole body is read; a missing body
yields an empty capture; otherwise `readBodyLimited` is applied.  The
headers are passed through unchanged (`httputil.DumpResponse(resp, false)`
is treated as the given header bytes). -/
def captureResponse (maxBodyBytes : Int) (headers : List Nat)
    (body : Option (List Nat)) : List Nat × List Nat × Nat × Bool :=
  match body with
  | none => (headers, [], 0, false)
  | some b =>
    if maxBodyBytes ≤ 0 then (headers, b, b.length, false)
    else
      let (bb, n, t) := readBodyLimited b maxBodyBytes.toNat
      (headers, bb, n, t)

/-- One captured exchange, `capturedData` in `backend_crawler.go`.  The
Go `Error error` field becomes `errMsg : Option String`. -/
structure CapturedData where
  request : List Nat
  respHeaders : List Nat
  respBody : List Nat
  respBodySize : Nat
  duration : Nat
  truncated : Bool
  errMsg : Option String
deriving DecidableEq

/-- `sync.Map.Store` on the capture store: replace any entry under the key
and add the new binding. -/
def storeCapture (store : List (String × CapturedData)) (k : String)
    (d : CapturedData) : List (String × CapturedData) :=
  (k, d) :: store.filter (fun p => ¬ p.1 = k)

/-- `sync.Map.LoadAndDelete` on the capture store: the loaded value (if
any) and the store with the key removed. -/
def loadAndDelete (store : List (String × CapturedData)) (k : String) :
    Option CapturedData × List (String × CapturedData) :=
  ((store.find? (fun p => p.1 = k)).map (·.2),
   store.filter (fun p => ¬ p.1 = k))

/-- `sync.Map.Load` (lookup only). -/
def lookupCapture (store : List (String × CapturedData)) (k : String) :
    Option CapturedData :=
  (store.find? (fun p => p.1 = k)).map (·.2)

/-- One stored crawl flow, `CrawlFlow` in the service package (only its
`DiscoveredAt` timestamp is abstracted to a `Nat`). -/
structure CrawlFlow where
  id : String
  sessionID : String
  url : String
  host : String
  path : String
  method : String
  foundOn : String
  depth : Nat
  statusCode : Nat
  contentType : String
  responseLength : Nat
  request : List Nat
  response : List Nat
  truncated : Bool
  duration : Nat
  discoveredAt : Nat
deriving DecidableEq

/-- `CrawlError` in the service package. -/
structure CrawlError where
  url : String
  error : String
  status : Nat
deriving DecidableEq

/-- The parts of a `crawlSession` the response and error callbacks read
and write: the capture store, the flow containers, the error list, and
the queue counter. -/
structure SessData where
  captureStore : List (String × CapturedData)
  flowsOrdered : List CrawlFlow
  flowsByID : List (String × CrawlFlow)
  errors : List CrawlError
  urlsQueued : Int
deriving DecidableEq

/-- The per-response inputs of the `OnResponse` callback: the response
content type, the correlation ID stored in the request context (empty
when absent), and the request metadata the flow is built from. -/
structure RespCtx where
  contentType : String
  captureID : String
  url : String
  host : String
  path : String
  rawQuery : String
  method : String
  foundOn : String
  depth : Nat
  statusCode : Nat

/-- The `c.OnResponse` callback of `CollyBackend.CreateSession`, line for
line: filter by content type (early return decrements `urlsQueued` and
touches nothing else), bail out on a missing correlation ID or a missing
capture entry, otherwise consume the capture entry (`LoadAndDelete`),
assemble the flow and append it to both flow containers. -/
def onResponse (sess : SessData) (sessID : String) (r : RespCtx)
    (newFlowID : String) (now : Nat) : SessData :=
  if r.contentType ≠ "" ∧ ¬ isAllowedContentType r.contentType then
    { sess with urlsQueued := sess.urlsQueued - 1 }
  else if r.captureID = "" then
    { sess with urlsQueued := sess.urlsQueued - 1 }
  else
    match loadAndDelete sess.captureStore r.captureID with
    | (none, _) => { sess with urlsQueued := sess.urlsQueued - 1 }
    | (some data, store') =>
      let respBytes := data.respHeaders ++ data.respBody
      let flowPath :=
        if r.rawQuery ≠ "" then r.path ++ "?" ++ r.rawQuery else r.path
      let flow : CrawlFlow :=
        { id := newFlowID, sessionID := sessID, url := r.url, host := r.host
          path := flowPath, method := r.method, foundOn := r.foundOn
          depth := r.depth, statusCode := r.statusCode
          contentType := r.contentType, responseLength := data.respBodySize
          request := data.request, response := respBytes
          truncated := data.truncated, duration := data.duration
          discoveredAt := now }
      { sess with
        captureStore := store'
        flowsByID := sess.flowsByID ++ [(newFlowID, flow)]
        flowsOrdered := sess.flowsOrdered ++ [flow]
        urlsQueued := sess.urlsQueued - 1 }

/-- The `c.OnError` callback of `CollyBackend.CreateSession`: drop the
correlation entry when a correlation ID is present, then record the
`CrawlError` and decrement `urlsQueued`. -/
def onError (sess : SessData) (captureID : String) (url : String)
    (errMsg : String) (status : Nat) : SessData :=
  let sess :=
    if captureID ≠ "" then
      { sess with captureStore := (loadAndDelete sess.captureStore captureID).2 }
    else sess
  { sess with
    errors := sess.errors ++ [{ url := url, error := errMsg, status := status }]
    urlsQueued := sess.urlsQueued - 1 }

/-- The session state constants `crawlStateRunning`, `crawlStateStopped`,
`crawlStateCompleted`. -/
inductive CrawlState where
  | running
  | stopped
  | completed
deriving DecidableEq

/-- `FormInput` in the service package. -/
structure FormInput where
  name : String
  type : String
  value : String
  required : Bool
deriving DecidableEq

/-- `DiscoveredForm` in the service package. -/
structure DiscoveredForm where
  id : String
  sessionID : String
  url : String
  action : String
  method : String
  hasCSRF : Bool
  inputs : List FormInput
deriving DecidableEq

/-- The observable per-session state for the lifecycle model: the fields
of `crawlSession` the callbacks and operations mutate, plus three ghost
counters describing where each request of the collector stands —
`pending` (enqueued visits not yet dispatched), `inflight` (requests past
the `OnRequest` counting section whose terminal callback has not fired),
and `processing` (responses whose HTML callbacks may still run). -/
structure SessS where
  state : CrawlState
  requestCount : Nat
  urlsQueued : Int
  pending : Nat
  inflight : Nat
  processing : Nat
  flowsOrdered : List CrawlFlow
  flowsByID : List (String × CrawlFlow)
  forms : List DiscoveredForm
  errors : List CrawlError
deriving DecidableEq

/-- One transition of a crawl session, parameterised by the session's
`opts.MaxRequests`.  Each constructor is one callback or operation of
`backend_crawler.go`; the guards are exactly the source's conditions (in
particular, none of the mutating callbacks checks the session state). -/
inductive Step (maxReq : Nat) : SessS → SessS → Prop where
  /-- `OnRequest`, the proceeding branch: the `MaxRequests` check and the
  increments of `requestCount` and `urlsQueued` form one critical section
  under `sess.mu`, so they are a single transition. -/
  | reqStart (s : SessS) :
      0 < s.pending →
      (maxReq = 0 ∨ s.requestCount < maxReq) →
      Step maxReq s
        { s with pending := s.pending - 1
                 requestCount := s.requestCount + 1
                 urlsQueued := s.urlsQueued + 1
                 inflight := s.inflight + 1 }
  /-- `OnRequest`, an aborting branch (`MaxRequests` reached or
  `AllowedPaths` mismatch): the request is dropped with no counter
  change. -/
  | reqAbort (s : SessS) :
      0 < s.pending →
      Step maxReq s { s with pending := s.pending - 1 }
  /-- `OnResponse`, accepted response: append the flow to both
  containers and decrement `urlsQueued`. -/
  | respCommit (s : SessS) (f : CrawlFlow) :
      0 < s.inflight →
      Step maxReq s
        { s with inflight := s.inflight - 1
                 processing := s.processing + 1
                 flowsOrdered := s.flowsOrdered ++ [f]
                 flowsByID := s.flowsByID ++ [(f.id, f)]
                 urlsQueued := s.urlsQueued - 1 }
  /-- `OnResponse`, filtered response (disallowed content type, missing
  correlation ID or missing capture entry): only `urlsQueued` drops. -/
  | respFiltered (s : SessS) :
      0 < s.inflight →
      Step maxReq s
        { s with inflight := s.inflight - 1
                 processing := s.processing + 1
                 urlsQueued := s.urlsQueued - 1 }
  /-- `OnError`, transport error: append the `CrawlError` and decrement
  `urlsQueued`. -/
  | respError (s : SessS) (e : CrawlError) :
      0 < s.inflight →
      Step maxReq s
        { s with inflight := s.inflight - 1
                 errors := s.errors ++ [e]
                 urlsQueued := s.urlsQueued - 1 }
  /-- `OnHTML("form")`: append a discovered form while a response is
  being processed. -/
  | formFound (s : SessS) (fm : DiscoveredForm) :
      0 < s.processing →
      Step maxReq s { s with forms := s.forms ++ [fm] }
  /-- `OnHTML("a[href]")`: enqueue a newly discovered link while a
  response is being processed. -/
  | linkFound (s : SessS) :
      0 < s.processing →
      Step maxReq s { s with pending := s.pending + 1 }
  /-- The HTML callbacks of one response have finished. -/
  | scrapeDone (s : SessS) :
      0 < s.processing →
      Step maxReq s { s with processing := s.processing - 1 }
  /-- `AddSeeds` on a running session enqueues the unseen seed URLs. -/
  | addSeeds (s : SessS) (k : Nat) :
      s.state = .running →
      Step maxReq s { s with pending := s.pending + k }
  /-- `StopSession` on a running session (on a non-running one it is a
  no-op). -/
  | stopSession (s : SessS) :
      s.state = .running →
      Step maxReq s { s with state := .stopped }
  /-- The background worker after `c.Wait()` returns: the frontier has
  drained and the state is still `running`, so it becomes `completed`. -/
  | complete (s : SessS) :
      s.state = .running →
      s.pending = 0 → s.inflight = 0 → s.processing = 0 →
      Step maxReq s { s with state := .completed }

/-- A fresh session as `CreateSession` registers it, about to visit
`seeds` seed URLs. -/
def initSess (seeds : Nat) : SessS :=
  { state := .running, requestCount := 0, urlsQueued := 0, pending := seeds
    inflight := 0, processing := 0, flowsOrdered := [], flowsByID := []
    forms := [], errors := [] }

/-- The states a session with request cap `maxReq` and `seeds` initial
seed URLs can reach. -/
def Reachable (maxReq seeds : Nat) (s : SessS) : Prop :=
  Relation.ReflTransGen (Step maxReq) (initSess seeds) s

/-- The error a request aborted by `StopSession`'s context cancellation
produces. -/
def errCanceled : CrawlError :=
  { url := "http://h/a", error := "context canceled", status := 0 }

/-- A reachable state: one request in flight, then `StopSession`. -/
def stoppedMidFlight : SessS :=
  { state := .stopped, requestCount := 1, urlsQueued := 1, pending := 0
    inflight := 1, processing := 0, flowsOrdered := [], flowsByID := []
    forms := [], errors := [] }

/-- `stoppedMidFlight` after the aborted request's `OnError` callback. -/
def afterLateError : SessS :=
  { state := .stopped, requestCount := 1, urlsQueued := 0, pending := 0
    inflight := 0, processing := 0, flowsOrdered := [], flowsByID := []
    forms := [], errors := [errCanceled] }

/-- A session is quiescent when its state has left `running` and no
request is pending, in flight or still being processed. -/
def Quiescent (s : SessS) : Prop :=
  s.state ≠ .running ∧ s.pending = 0 ∧ s.inflight = 0 ∧ s.processing = 0

/-- `CrawlListOptions` as `ListFlows` consumes it.  The host, path,
status, method, exclude and substring filters are only ever used through
`matchesFlowFilters(flow, opts)`, whose glob helper lives outside the
staged sources; they are therefore abstracted into the boolean predicate
`pred`, and the theorems quantify over every such predicate ("for any
filter options"). -/
structure CrawlListOptions where
  since : String
  offset : Nat
  limit : Nat
  pred : CrawlFlow → Bool

/-- The filtering loop of `ListFlows`
(`for i := startIdx; i < len; i++ { if matches … append (flow, i) }`),
written with a running index starting at `i`. -/
def collectFiltered (pred : CrawlFlow → Bool) (startIdx : Nat) :
    List CrawlFlow → Nat → List (Nat × CrawlFlow)
  | [], _ => []
  | f :: rest, i =>
    if startIdx ≤ i ∧ pred f = true then
      (i, f) :: collectFiltered pred startIdx rest (i + 1)
    else collectFiltered pred startIdx rest (i + 1)

/-- `CollyBackend.ListFlows`, body after session resolution: compute the
start index from `Since` (`"last"` reads the cursor, a flow ID starts
just after that flow, anything else starts at 0), filter with original
indices, apply `Offset` (returning early, without touching the cursor,
when it swallows everything), apply `Limit`, advance the cursor to the
last returned original index + 1 when that is larger, and return the
flows.  Returns the result list and the new `lastReturnedIdx`.
`listFlowsCore` is the body from the filtering loop on, with the start
index already computed. -/
def listFlowsCore (flows : List CrawlFlow) (lastReturnedIdx startIdx : Nat)
    (offset limit : Nat) (pred : CrawlFlow → Bool) :
    List CrawlFlow × Nat :=
  let filtered := collectFiltered pred startIdx flows 0
  if 0 < offset ∧ filtered.length ≤ offset then
    ([], lastReturnedIdx)
  else
    let filtered2 := if 0 < offset then filtered.drop offset else filtered
    let filtered3 :=
      if 0 < limit ∧ limit < filtered2.length then filtered2.take limit
      else filtered2
    let newIdx :=
      match filtered3.getLast? with
      | some p => if lastReturnedIdx < p.1 + 1 then p.1 + 1 else lastReturnedIdx
      | none => lastReturnedIdx
    (filtered3.map (·.2), newIdx)

/-- `CollyBackend.ListFlows`: compute the start index from `Since`
(as described above) and run the core. -/
def listFlows (flows : List CrawlFlow) (lastReturnedIdx : Nat)
    (opts : CrawlListOptions) : List CrawlFlow × Nat :=
  let startIdx : Nat :=
    if opts.since ≠ "" then
      if opts.since = "last" then lastReturnedIdx
      else
        match flows.enum.find? (fun p => p.2.id = opts.since) with
        | some p => p.1 + 1
        | none => 0
    else 0
  listFlowsCore flows lastReturnedIdx startIdx opts.offset opts.limit
    opts.pred

/-- A concrete flow, for exercising `ListFlows`. -/
def flowA : CrawlFlow :=
  { id := "fa", sessionID := "s", url := "http://h/a", host := "h"
    path := "/a", method := "GET", foundOn := "seed", depth := 0
    statusCode := 200, contentType := "text/html", responseLength := 0
    request := [], response := [], truncated := false, duration := 0
    discoveredAt := 0 }

/-- A second concrete flow. -/
def flowB : CrawlFlow :=
  { flowA with id := "fb", url := "http://h/b", path := "/b" }

/-- `Since="last"` with `Limit=1` and an all-accepting filter. -/
def limitOneOpts : CrawlListOptions :=
  { since := "last", offset := 0, limit := 1, pred := fun _ => true }

/-- `config.CrawlerConfig` as the crawler backend reads it.  The Go
`*bool` fields become `Option Bool` (`none` = nil) and the `*bool`
`IncludeSubdomains` that is dereferenced unconditionally becomes `Bool`.
Durations are milliseconds. -/
structure CrawlerConfig where
  maxConcurrentSessions : Nat
  maxResponseBodyBytes : Int
  includeSubdomains : Bool
  defaultDisallowedPaths : List String
  defaultDelayMS : Nat
  defaultParallelism : Nat
  defaultMaxDepth : Nat
  defaultMaxRequests : Nat
  defaultExtractForms : Option Bool
  defaultSubmitForms : Option Bool
deriving DecidableEq

/-- `CrawlOptions` (per-session), without the `Seeds` field: seed
resolution is I/O against the proxy store and is not part of the
modelled guards.  Durations are milliseconds. -/
structure CrawlOptions where
  label : String
  explicitDomains : List String
  allowedPaths : List String
  disallowedPaths : List String
  headers : List (String × String)
  maxDepth : Nat
  maxRequests : Nat
  delayMS : Nat
  randomDelayMS : Nat
  parallelism : Nat
  includeSubdomains : Bool
  ignoreRobotsTxt : Bool
  extractForms : Option Bool
  submitForms : Bool

/-- The per-session settings `CreateSession` actually installs. -/
structure EffectiveSettings where
  disallowedPaths : List String
  delayMS : Nat
  parallelism : Nat
  collectorMaxDepth : Nat
  maxRequests : Nat
  extractForms : Bool
deriving DecidableEq

/-- The defaulting logic of `CollyBackend.CreateSession`, line for line:
`DisallowedPaths` falls back to the config default when empty; `Delay`
and `Parallelism` fall back when zero; the collector's `MaxDepth` (whose
zero value means unlimited) is set only when `opts.MaxDepth > 0` — the
config's `DefaultMaxDepth` is never read; `opts.MaxRequests` is used
directly in the `OnRequest` callback — the config's `DefaultMaxRequests`
is never read; `ExtractForms` starts from `true`, is overridden by the
config default when that is non-nil, and by the option when that is
non-nil. -/
def effectiveSettings (cfg : CrawlerConfig) (opts : CrawlOptions) :
    EffectiveSettings :=
  let disallowed :=
    if opts.disallowedPaths = [] then cfg.defaultDisallowedPaths
    else opts.disallowedPaths
  let delay := if opts.delayMS = 0 then cfg.defaultDelayMS else opts.delayMS
  let par :=
    if opts.parallelism = 0 then cfg.defaultParallelism else opts.parallelism
  let cMaxDepth := if 0 < opts.maxDepth then opts.maxDepth else 0
  let ef0 :=
    match cfg.defaultExtractForms with
    | some b => b
    | none => true
  let ef :=
    match opts.extractForms with
    | some b => b
    | none => ef0
  { disallowedPaths := disallowed, delayMS := delay, parallelism := par
    collectorMaxDepth := cMaxDepth, maxRequests := opts.maxRequests
    extractForms := ef }

/-- The error kinds of the modelled backend operations. -/
inductive BackendError where
  | backendClosed
  | tooManySessions (limit : Nat)
  | labelExists (label : String)
  | sessionNotFound (identifier : String)
  | sessionNotRunning (identifier : String)
deriving DecidableEq

/-- One registered session as the backend maps see it. -/
structure SessionEntry where
  id : String
  label : String
  state : CrawlState
deriving DecidableEq

/-- `CollyBackend`'s own fields: the closed flag and the session
registry (`sessions` plus the label index, here one list with the
labels inline; `byLabel` only ever holds non-empty labels). -/
structure BackendModel where
  closed : Bool
  sessions : List SessionEntry
  config : CrawlerConfig

/-- `CollyBackend.resolveSession`: try the identifier as a session ID
first, then as a (non-empty) label. -/
def resolveSession (b : BackendModel) (identifier : String) :
    Option SessionEntry :=
  match b.sessions.find? (fun s => s.id = identifier) with
  | some s => some s
  | none => b.sessions.find? (fun s => s.label = identifier ∧ ¬ s.label = "")

/-- The guard phase of `CollyBackend.CreateSession`: the closed check,
the concurrent-session limit, the label-uniqueness check, then the
session is set up with the defaulted settings.  (Seed resolution and
collector wiring follow the guards; they cannot produce `backend_closed`
and are outside this model.) -/
def createSessionChecked (b : BackendModel) (opts : CrawlOptions) :
    Except BackendError EffectiveSettings :=
  if b.closed then .error .backendClosed
  else
    let active := (b.sessions.filter (fun s => s.state = CrawlState.running)).length
    if b.config.maxConcurrentSessions ≤ active then
      .error (.tooManySessions b.config.maxConcurrentSessions)
    else if opts.label ≠ ""
        ∧ (b.sessions.find? (fun s => s.label = opts.label)).isSome then
      .error (.labelExists opts.label)
    else .ok (effectiveSettings b.config opts)

/-- `CollyBackend.AddSeeds`, guard phase: resolve the session and
require it running.  The function never reads `b.closed`.  (Seed
resolution and enqueuing follow; they do not read the closed flag
either.) -/
def addSeeds (b : BackendModel) (sessionID : String) :
    Except BackendError Unit :=
  match resolveSession b sessionID with
  | none => .error (.sessionNotFound sessionID)
  | some sess =>
    if sess.state ≠ CrawlState.running then
      .error (.sessionNotRunning sessionID)
    else .ok ()

/-- `CollyBackend.Close`: mark the backend closed and cancel every
session's context.  The session registry is kept and no session state
changes (a session becomes `stopped`/`completed` only later, through its
own callbacks). -/
def closeBackend (b : BackendModel) : BackendModel := { b with closed := true }

/-- A config whose `DefaultMaxDepth` and `DefaultMaxRequests` are
nonzero, to witness that they are never consulted. -/
def cfgEx : CrawlerConfig :=
  { maxConcurrentSessions := 2, maxResponseBodyBytes := 1000
    includeSubdomains := false, defaultDisallowedPaths := ["/logout*"]
    defaultDelayMS := 100, defaultParallelism := 4, defaultMaxDepth := 7
    defaultMaxRequests := 9, defaultExtractForms := none
    defaultSubmitForms := none }

/-- Options with every per-session field zero, empty or absent. -/
def optsZero : CrawlOptions :=
  { label := "", explicitDomains := [], allowedPaths := []
    disallowedPaths := [], headers := [], maxDepth := 0, maxRequests := 0
    delayMS := 0, randomDelayMS := 0, parallelism := 0
    includeSubdomains := false, ignoreRobotsTxt := false
    extractForms := none, submitForms := false }

/-- A backend holding one running session with ID `s1`. -/
def backendEx : BackendModel :=
  { closed := false
    sessions := [{ id := "s1", label := "", state := CrawlState.running }]
    config := cfgEx }

/-- Modelled from the spec: `Reflection{Name, Source, Value, Locations}`
of §4.8 — the `protocol` package defining it is not among the staged
sources. -/
structure Reflection where
  name : String
  source : String
  value : String
  locations : List String
deriving DecidableEq

/-- The characters the HTML escaper rewrites (`<`, `>`, `&`, `"`, `'`). -/
def needsHTMLEscape (c : Char) : Bool :=
  c = '<' || c = '>' || c = '&' || c = '"' || c = '\''

/-- HTML-entity escape of one character (spec §4.8: `<` → `&lt;`,
`>` → `&gt;`, `&` → `&amp;`, `"` → `&quot;`, `'` → `&#39;`). -/
def htmlEscapeChar (c : Char) : List Char :=
  if c = '<' then "&lt;".data
  else if c = '>' then "&gt;".data
  else if c = '&' then "&amp;".data
  else if c = '"' then "&quot;".data
  else if c = '\'' then "&#39;".data
  else [c]

/-- Hexadecimal digits of `n`, lowercase. -/
def hexDigits (n : Nat) : List Char := Nat.toDigits 16 n

/-- `n` as exactly four lowercase hex digits. -/
def hex4 (n : Nat) : List Char :=
  List.replicate (4 - (hexDigits n).length) '0' ++ hexDigits n

/-- `n` as exactly two lowercase hex digits. -/
def hex2 (n : Nat) : List Char :=
  List.replicate (2 - (hexDigits n).length) '0' ++ hexDigits n

/-- Characters URL encoding leaves alone (alphanumerics and `-_.~`). -/
def isUnreserved (c : Char) : Bool :=
  c.isAlphanum || c = '-' || c = '_' || c = '.' || c = '~'

/-- Percent-escape of one character, uppercase hex. -/
def percentHex (c : Char) : List Char :=
  '%' :: (hex2 c.toNat).map Char.toUpper

/-- URL encoding with `+` for space (query-style). -/
def urlEncodePlus (v : List Char) : List Char :=
  v.flatMap fun c =>
    if isUnreserved c then [c]
    else if c = ' ' then ['+']
    else percentHex c

/-- URL encoding with `%20` for space. -/
def urlEncodePercent (v : List Char) : List Char :=
  v.flatMap fun c => if isUnreserved c then [c] else percentHex c

/-- JavaScript `\uXXXX` escape of the escape-set characters, lowercase
hex. -/
def jsUnicodeEscape (v : List Char) : List Char :=
  v.flatMap fun c =>
    if needsHTMLEscape c then '\\' :: 'u' :: hex4 c.toNat else [c]

/-- JavaScript `\uXXXX` escape, uppercase hex (the hex comparison is
case-insensitive, so both variants are searched). -/
def jsUnicodeEscapeUpper (v : List Char) : List Char :=
  v.flatMap fun c =>
    if needsHTMLEscape c then
      '\\' :: 'u' :: (hex4 c.toNat).map Char.toUpper
    else [c]

/-- JavaScript `\xXX` escape, lowercase hex. -/
def jsHexEscape (v : List Char) : List Char :=
  v.flatMap fun c =>
    if needsHTMLEscape c then '\\' :: 'x' :: hex2 c.toNat else [c]

/-- JavaScript `\xXX` escape, uppercase hex. -/
def jsHexEscapeUpper (v : List Char) : List Char :=
  v.flatMap fun c =>
    if needsHTMLEscape c then
      '\\' :: 'x' :: (hex2 c.toNat).map Char.toUpper
    else [c]

/-- Does `p` hold of some suffix of the list? -/
def anySuffix (p : List Char → Bool) : List Char → Bool
  | [] => p []
  | c :: rest => p (c :: rest) || anySuffix p rest

/-- Substring containment: some suffix of `hay` starts with `pat`. -/
def containsSub (hay pat : List Char) : Bool :=
  anySuffix (fun s => pat.isPrefixOf s) hay

/-- Match `v` against a prefix of `s` where every escape-set character
must appear in its entity form `enc` and any other character may appear
either literally or in entity form (spec §4.8: numeric entities "match
if every character needing escape is so encoded"). -/
def matchEntitySeq (enc : Char → List Char) : List Char → List Char → Bool
  | [], _ => true
  | c :: vs, s =>
    if needsHTMLEscape c then
      (enc c).isPrefixOf s && matchEntitySeq enc vs (s.drop (enc c).length)
    else
      (match s with
       | c' :: s' => c' = c && matchEntitySeq enc vs s'
       | [] => false)
      || ((enc c).isPrefixOf s
          && matchEntitySeq enc vs (s.drop (enc c).length))

/-- Does `v`, entity-encoded via `enc`, occur in `hay`? -/
def containsEntityEncoded (enc : Char → List Char) (v hay : List Char) :
    Bool :=
  anySuffix (fun s => matchEntitySeq enc v s) hay

/-- Decimal numeric entity of one character (`&#60;`). -/
def entityDec (c : Char) : List Char :=
  '&' :: '#' :: (Nat.repr c.toNat).data ++ [';']

/-- Hexadecimal numeric entity of one character (`&#x3c;`). -/
def entityHex (c : Char) : List Char :=
  '&' :: '#' :: 'x' :: hexDigits c.toNat ++ [';']

/-- Modelled from the spec: the multi-encoding search of §4.8 — the
finder's implementation file is not among the staged sources (only its
tests are).  A value reflects in a haystack when it occurs as a raw
literal, HTML-entity-escaped, as HTML numeric entities (decimal or hex),
URL-encoded (`+` or `%20` for space), or as JavaScript `\uXXXX` /
`\xXX` escapes (hex case-insensitive). -/
def reflectsIn (value : String) (hay : String) : Bool :=
  let v := value.data
  let h := hay.data
  containsSub h v
  || containsSub h (v.flatMap htmlEscapeChar)
  || containsEntityEncoded entityDec v h
  || containsEntityEncoded entityHex v h
  || containsSub h (urlEncodePlus v)
  || containsSub h (urlEncodePercent v)
  || containsSub h (jsUnicodeEscape v)
  || containsSub h (jsUnicodeEscapeUpper v)
  || containsSub h (jsHexEscape v)
  || containsSub h (jsHexEscapeUpper v)

/-- Modelled from the spec: the response a reflection is searched in,
already split into headers and body (the finder's HTTP parsing is not
among the staged sources). -/
structure RespModel where
  headers : List (String × String)
  body : String

/-- Modelled from the spec: each match records `"body"` when found in
the response body and `"header:<Name>"` for each header whose combined
value contains a match (§4.8). -/
def reflectionLocations (value : String) (resp : RespModel) :
    List String :=
  (if reflectsIn value resp.body then ["body"] else [])
  ++ resp.headers.filterMap fun h =>
      if reflectsIn value h.2 then some ("header:" ++ h.1) else none

/-- Modelled from the spec: the result ordering of §4.8, ascending by
`(Source, Name)`. -/
def reflLe (a b : Reflection) : Prop :=
  a.source < b.source ∨ (a.source = b.source ∧ a.name ≤ b.name)

instance : DecidableRel reflLe := fun _ _ =>
  inferInstanceAs (Decidable (_ ∨ _))

instance : IsTotal Reflection reflLe :=
  ⟨fun a b => by
    rcases lt_trichotomy a.source b.source with h | h | h
    · exact Or.inl (Or.inl h)
    · rcases le_total a.name b.name with h' | h'
      · exact Or.inl (Or.inr ⟨h, h'⟩)
      · exact Or.inr (Or.inr ⟨h.symm, h'⟩)
    · exact Or.inr (Or.inl h)⟩

instance : IsTrans Reflection reflLe :=
  ⟨fun a b c hab hbc => by
    rcases hab with h | ⟨he, hn⟩ <;> rcases hbc with h' | ⟨he', hn'⟩
    · exact Or.inl (lt_trans h h')
    · exact Or.inl (he' ▸ h)
    · exact Or.inl (he ▸ h')
    · exact Or.inr ⟨he.trans he', le_trans hn hn'⟩⟩

/-- Modelled from the spec: `findReflections` of §4.8 — the finder's
implementation file is not among the staged sources (only its tests
are).  Parameters whose value has length ≤ 3 are skipped; each remaining
parameter is searched in the response body and headers under the
encodings of `reflectsIn`; parameters with no match are dropped; the
result is sorted ascending by `(Source, Name)`. -/
def findReflections (params : List Reflection) (resp : RespModel) :
    List Reflection :=
  let found := params.filterMap fun p =>
    if p.value.length ≤ 3 then none
    else
      let locs := reflectionLocations p.value resp
      if locs.isEmpty then none else some { p with locations := locs }
  List.insertionSort reflLe found

/-- The characters Go `regexp.QuoteMeta` escapes
(`\.+*?()|[]{}^$`). -/
def isRegexSpecial (c : Char) : Bool :=
  c = '\\' || c = '.' || c = '+' || c = '*' || c = '?' || c = '(' || c = ')'
  || c = '|' || c = '[' || c = ']' || c = '\x7b' || c = '\x7d' || c = '^'
  || c = '$'

/-- Go `regexp.QuoteMeta`: prepend a backslash to every special
character. -/
def quoteMeta : List Char → List Char
  | [] => []
  | c :: rest => (if isRegexSpecial c then ['\\', c] else [c]) ++ quoteMeta rest

/-- Go `strings.ReplaceAll(s, pat, rep)` specialised to the
two-character patterns the glob transformation uses (a backslash
followed by `t`): leftmost match, non-overlapping, replaced by `rep`. -/
def replaceEscPair (t : Char) (rep : List Char) : List Char → List Char
  | [] => []
  | [c] => [c]
  | a :: b :: rest =>
    if a = '\\' ∧ b = t then rep ++ replaceEscPair t rep rest
    else a :: replaceEscPair t rep (b :: rest)

/-- The per-pattern transformation of `globsToRegexes`: `QuoteMeta`,
then replace `\*` by `.*`, then `\?` by `.`. -/
def transformGlob (p : List Char) : List Char :=
  replaceEscPair '?' ['.'] (replaceEscPair '*' ['.', '*'] (quoteMeta p))

/-- Drop one leading `*`. -/
def dropStar (s : List Char) : List Char :=
  match s with
  | [] => []
  | c :: rest => if c = '*' then rest else c :: rest

/-- A recogniser for a sublanguage of valid Go regular expressions:
sequences of atoms — an escaped special character, a dot, or an ordinary
(non-special) character — each optionally followed by a single `*`.
Every string of this sublanguage compiles: an escape of a special
character is a valid escape, `.` and literals are atoms, and one `*`
after an atom is a valid repetition.  `regexOk e = true` therefore
models `regexp.Compile(e)` succeeding, and the `err == nil` branch of
`globsToRegexes` corresponds to `regexOk` holding. -/
def regexOk : List Char → Bool
  | [] => true
  | a :: rest =>
    if a = '\\' then
      match rest with
      | [] => false
      | c :: rest2 => isRegexSpecial c && regexOk (dropStar rest2)
    else
      (a = '.' || !isRegexSpecial a) && regexOk (dropStar rest)
termination_by s => s.length
decreasing_by
  all_goals
    have hds : ∀ s : List Char, (dropStar s).length ≤ s.length := by
      intro s
      cases s with
      | nil => simp [dropStar]
      | cons x r =>
        simp only [dropStar]
        split <;> simp
    simp only [List.length_cons]
    exact lt_of_le_of_lt (hds _) (by omega)

/-- `globsToRegexes` from `backend_crawler.go`: transform each glob and
keep it when it compiles (the `regexp.Compile` success is modelled by
`regexOk`); a pattern that failed to compile would be silently
dropped. -/
def globsToRegexes (patterns : List (List Char)) : List (List Char) :=
  patterns.filterMap fun p =>
    let e := transformGlob p
    if regexOk e then some e else none

/-- The per-character shape of a fully transformed glob: `*` becomes
`.*`, `?` becomes `.`, every other special character stays escaped, and
ordinary characters pass through. -/
def blockFull (c : Char) : List Char :=
  if c = '*' then ['.', '*']
  else if c = '?' then ['.']
  else if isRegexSpecial c then ['\\', c]
  else [c]

/-- The per-character shape after the `\*` → `.*` stage only. -/
def blockStar (c : Char) : List Char :=
  if c = '*' then ['.', '*']
  else if isRegexSpecial c then ['\\', c]
  else [c]

/-- A concrete capture entry for exercising the terminal paths. -/
def capEx : CapturedData :=
  { request := [71], respHeaders := [72], respBody := [66]
    respBodySize := 1, duration := 5, truncated := false, errMsg := none }

/-- A session whose capture store holds the entry `capEx` under `cap1`,
as it does after the transport round-trip and before the callbacks. -/
def sessEx : SessData :=
  { captureStore := [("cap1", capEx)], flowsOrdered := [], flowsByID := []
    errors := [], urlsQueued := 1 }

/-- The response context of a content-type-filtered response carrying the
correlation ID `cap1`. -/
def filteredCtx : RespCtx :=
  { contentType := "image/png", captureID := "cap1", url := "http://h/x.png"
    host := "h", path := "/x.png", rawQuery := "", method := "GET"
    foundOn := "seed", depth := 1, statusCode := 200 }

/-- C4: for a positive body limit `k` and a body of `n` bytes, the
capturing transport stores the first `min k n` bytes, records the true
size `n`, and flags truncation exactly when `n > k`: spelled out, for
`n > k` the stored body is `body.take k` of length exactly `k` with
`Truncated = true`, and for `n ≤ k` the whole body is stored with
`Truncated = false`.  (`CrawlFlow.ResponseLength` and `CrawlFlow.Truncated`
are copied verbatim from this capture in the response callback.) -/
theorem captureResponse_truncation (k : Int) (hdrs body : List Nat)
    (hk : 0 < k) :
    (k.toNat < body.length →
      captureResponse k hdrs (some body)
        = (hdrs, body.take k.toNat, body.length, true)
      ∧ (body.take k.toNat).length = k.toNat) ∧
    (body.length ≤ k.toNat →
      captureResponse k hdrs (some body) = (hdrs, body, body.length, false)) := by
  have hk' : ¬ k ≤ 0 := by omega
  constructor
  · intro hlt
    have htake : (body.take k.toNat).length = k.toNat := by
      simp [List.length_take]; omega
    refine ⟨?_, htake⟩
    simp only [captureResponse, readBodyLimited, if_neg hk']
    rw [htake]
    have hrem : body.length - k.toNat ≠ 0 := by omega
    simp [hrem]
    omega
  · intro hle
    have htake : body.take k.toNat = body := List.take_of_length_le hle
    simp only [captureResponse, readBodyLimited, if_neg hk', htake]
    have hrem : body.length - body.length = 0 := by omega
    simp

/-- C4 witness: limit 2 on a 3-byte body keeps 2 bytes, reports size 3 and
truncation; the same limit on a 2-byte body keeps everything. -/
theorem captureResponse_truncation_witness :
    captureResponse 2 [9] (some [1, 2, 3]) = ([9], [1, 2], 3, true)
    ∧ captureResponse 2 [9] (some [1, 2]) = ([9], [1, 2], 2, false) :=
  ⟨((captureResponse_truncation 2 [9] [1, 2, 3] (by decide)).1 (by decide)).1,
   (captureResponse_truncation 2 [9] [1, 2] (by decide)).2 (by decide)⟩

/-- The inductive invariant behind the request cap: committed flows,
recorded errors and in-flight requests never outnumber started requests,
and with a positive cap the started requests never exceed it. -/
theorem reachable_request_invariant (maxReq seeds : Nat) (s : SessS)
    (h : Reachable maxReq seeds s) :
    s.flowsOrdered.length + s.errors.length + s.inflight ≤ s.requestCount
    ∧ (0 < maxReq → s.requestCount ≤ maxReq) := by
  induction h with
  | refl => simp [initSess]
  | tail _ hstep ih =>
    cases hstep <;> simp_all [List.length_append] <;> omega

/-- C1: with `MaxRequests > 0`, in every reachable session state the
request counter is at most `MaxRequests` (the check and the increments of
`RequestCount` and `URLsQueued` are a single transition, as they form one
critical section under the session lock), and the number of stored flows
plus recorded errors is at most `MaxRequests`. -/
theorem maxRequests_never_exceeded (maxReq seeds : Nat) (s : SessS)
    (hpos : 0 < maxReq) (h : Reachable maxReq seeds s) :
    s.requestCount ≤ maxReq
    ∧ s.flowsOrdered.length + s.errors.length ≤ maxReq := by
  obtain ⟨h1, h2⟩ := reachable_request_invariant maxReq seeds s h
  exact ⟨h2 hpos, by omega⟩

/-- C1 witness: the freshly created session with three seeds under cap 1
satisfies the bound. -/
theorem maxRequests_never_exceeded_witness :
    (initSess 3).requestCount ≤ 1
    ∧ (initSess 3).flowsOrdered.length + (initSess 3).errors.length ≤ 1 :=
  maxRequests_never_exceeded 1 3 (initSess 3) (by decide)
    Relation.ReflTransGen.refl

/-- C2 counterexample: the sequences are not frozen the moment the state
leaves `running` — from the reachable state `stoppedMidFlight`, whose
state is already `stopped` with an empty error list, the `OnError`
callback of the cancelled in-flight request still appends a `CrawlError`
(none of the mutating callbacks checks the session state). -/
theorem frozen_after_stop_counterexample :
    Reachable 0 1 stoppedMidFlight
    ∧ stoppedMidFlight.state = .stopped
    ∧ stoppedMidFlight.errors = []
    ∧ Step 0 stoppedMidFlight afterLateError
    ∧ afterLateError.errors = [errCanceled] := by
  refine ⟨?_, rfl, rfl, ?_, rfl⟩
  · have h1 : Step 0 (initSess 1)
        { initSess 1 with pending := 0, requestCount := 1, urlsQueued := 1
                          inflight := 1 } :=
      Step.reqStart (initSess 1) (by decide) (Or.inl rfl)
    have h2 : Step 0
        { initSess 1 with pending := 0, requestCount := 1, urlsQueued := 1
                          inflight := 1 }
        stoppedMidFlight :=
      Step.stopSession _ rfl
    exact (Relation.ReflTransGen.refl.tail h1).tail h2
  · exact Step.respError stoppedMidFlight errCanceled (by decide)

/-- No transition is enabled in a quiescent session. -/
theorem quiescent_no_step (maxReq : Nat) (s t : SessS) (hq : Quiescent s)
    (st : Step maxReq s t) : False := by
  obtain ⟨h1, h2, h3, h4⟩ := hq
  cases st <;> simp_all

/-- C2 amended: the flow, form and error sequences are frozen only once
the session is quiescent — the state has left `running` AND every
pending, in-flight and in-processing request has terminated; from such a
state nothing changes any more.  (Until then, the counterexample shows
cancelled in-flight requests still append errors, and in-progress
responses may still append flows and forms.) -/
theorem sequences_frozen_when_quiescent (maxReq : Nat) (s s' : SessS)
    (hq : Quiescent s) (h : Relation.ReflTransGen (Step maxReq) s s') :
    s'.flowsOrdered = s.flowsOrdered ∧ s'.flowsByID = s.flowsByID
    ∧ s'.forms = s.forms ∧ s'.errors = s.errors := by
  have key : s' = s := by
    induction h with
    | refl => rfl
    | tail _ hbc ih =>
      subst ih
      exact absurd hbc (quiescent_no_step maxReq _ _ hq)
  rw [key]
  exact ⟨rfl, rfl, rfl, rfl⟩

/-- C2 amended witness: a stopped, fully drained session stays itself. -/
theorem sequences_frozen_when_quiescent_witness :
    afterLateError.flowsOrdered = afterLateError.flowsOrdered
    ∧ afterLateError.flowsByID = afterLateError.flowsByID
    ∧ afterLateError.forms = afterLateError.forms
    ∧ afterLateError.errors = afterLateError.errors :=
  sequences_frozen_when_quiescent 0 afterLateError afterLateError
    ⟨by decide, rfl, rfl, rfl⟩ Relation.ReflTransGen.refl

/-- Every collected pair respects the start threshold, sits at or beyond
the running index, and satisfies the filter. -/
theorem collectFiltered_mem_le (pred : CrawlFlow → Bool) (start : Nat)
    (l : List CrawlFlow) (i : Nat) (p : Nat × CrawlFlow)
    (hp : p ∈ collectFiltered pred start l i) :
    start ≤ p.1 ∧ i ≤ p.1 ∧ pred p.2 = true := by
  induction l generalizing i with
  | nil => simp [collectFiltered] at hp
  | cons f rest ih =>
    simp only [collectFiltered] at hp
    by_cases hc : start ≤ i ∧ pred f = true
    · rw [if_pos hc] at hp
      rcases List.mem_cons.mp hp with h | h
      · subst h; exact ⟨hc.1, Nat.le_refl i, hc.2⟩
      · have := ih (i + 1) h
        exact ⟨this.1, by omega, this.2.2⟩
    · rw [if_neg hc] at hp
      have := ih (i + 1) hp
      exact ⟨this.1, by omega, this.2.2⟩

/-- Lowering the start threshold only adds collected pairs. -/
theorem collectFiltered_mem_mono (pred : CrawlFlow → Bool)
    (start start' : Nat) (h : start ≤ start') (l : List CrawlFlow) (i : Nat)
    (p : Nat × CrawlFlow) (hp : p ∈ collectFiltered pred start' l i) :
    p ∈ collectFiltered pred start l i := by
  induction l generalizing i with
  | nil => simp [collectFiltered] at hp
  | cons f rest ih =>
    simp only [collectFiltered] at hp ⊢
    by_cases hc' : start' ≤ i ∧ pred f = true
    · rw [if_pos hc'] at hp
      rw [if_pos ⟨Nat.le_trans h hc'.1, hc'.2⟩]
      rcases List.mem_cons.mp hp with h1 | h1
      · exact List.mem_cons.mpr (Or.inl h1)
      · exact List.mem_cons.mpr (Or.inr (ih (i + 1) h1))
    · rw [if_neg hc'] at hp
      by_cases hc : start ≤ i ∧ pred f = true
      · rw [if_pos hc]
        exact List.mem_cons.mpr (Or.inr (ih (i + 1) hp))
      · rw [if_neg hc]
        exact ih (i + 1) hp

/-- The collected pairs carry strictly increasing original indices. -/
theorem collectFiltered_pairwise (pred : CrawlFlow → Bool) (start : Nat)
    (l : List CrawlFlow) (i : Nat) :
    (collectFiltered pred start l i).Pairwise (fun a b => a.1 < b.1) := by
  induction l generalizing i with
  | nil => simp [collectFiltered]
  | cons f rest ih =>
    simp only [collectFiltered]
    by_cases hc : start ≤ i ∧ pred f = true
    · rw [if_pos hc]
      refine List.pairwise_cons.mpr ⟨fun q hq => ?_, ih (i + 1)⟩
      have := collectFiltered_mem_le pred start rest (i + 1) q hq
      omega
    · rw [if_neg hc]
      exact ih (i + 1)

/-- In a list with strictly increasing indices, the last element carries
the largest index. -/
theorem mem_le_getLast_of_pairwise (l : List (Nat × CrawlFlow))
    (hl : l.Pairwise (fun a b => a.1 < b.1)) (p : Nat × CrawlFlow)
    (hp : p ∈ l) (q : Nat × CrawlFlow) (hq : l.getLast? = some q) :
    p.1 ≤ q.1 := by
  induction l with
  | nil => simp at hp
  | cons a t ih =>
    cases t with
    | nil =>
      simp only [List.getLast?_singleton, Option.some.injEq] at hq
      simp only [List.mem_singleton] at hp
      subst hp; subst hq; exact Nat.le_refl _
    | cons b t' =>
      have hq' : (b :: t').getLast? = some q := by
        simpa [List.getLast?_cons_cons] using hq
      rcases List.mem_cons.mp hp with h | h
      · subst h
        have hqmem : q ∈ b :: t' := by
          obtain ⟨h9, heq⟩ :=
            List.mem_getLast?_eq_getLast (Option.mem_def.mpr hq')
          rw [heq]
          exact List.getLast_mem h9
        have := (List.pairwise_cons.mp hl).1 q hqmem
        omega
      · exact ih (List.pairwise_cons.mp hl).2 h hq'

/-- Dropping fewer elements than the length keeps the last element. -/
theorem getLast?_drop_of_lt (l : List (Nat × CrawlFlow)) (n : Nat)
    (h : n < l.length) : (l.drop n).getLast? = l.getLast? := by
  induction l generalizing n with
  | nil => simp at h
  | cons a t ih =>
    cases n with
    | zero => simp
    | succ m =>
      have ht : m < t.length := by simpa using h
      have hdrop : (a :: t).drop (m + 1) = t.drop m := rfl
      rw [hdrop, ih m ht]
      cases t with
      | nil => simp at ht
      | cons b t' => simp [List.getLast?_cons_cons]

/-- When every pair of the unrestricted collection sits below `c`, the
collection restricted to start `c` is empty. -/
theorem collectFiltered_eq_nil (pred : CrawlFlow → Bool)
    (l : List CrawlFlow) (c : Nat)
    (h : ∀ p, p ∈ collectFiltered pred 0 l 0 → p.1 < c) :
    collectFiltered pred c l 0 = [] := by
  rw [List.eq_nil_iff_forall_not_mem]
  intro p hp
  have h1 := (collectFiltered_mem_le pred c l 0 p hp).1
  have h2 := collectFiltered_mem_mono pred 0 c (Nat.zero_le c) l 0 p hp
  exact absurd (h p h2) (by omega)

/-- Membership in the thresholded collection is membership in the full
collection at or beyond the threshold. -/
theorem collectFiltered_mem_iff (pred : CrawlFlow → Bool) (start : Nat)
    (l : List CrawlFlow) (i : Nat) (p : Nat × CrawlFlow) :
    p ∈ collectFiltered pred start l i ↔
      (p ∈ collectFiltered pred 0 l i ∧ start ≤ p.1) := by
  induction l generalizing i with
  | nil => simp [collectFiltered]
  | cons f rest ih =>
    simp only [collectFiltered]
    split_ifs with h1 h2 h2
    · simp only [List.mem_cons, ih (i + 1)]
      constructor
      · rintro (rfl | ⟨h0, hs⟩)
        · exact ⟨Or.inl rfl, h1.1⟩
        · exact ⟨Or.inr h0, hs⟩
      · rintro ⟨rfl | h0, hs⟩
        · exact Or.inl rfl
        · exact Or.inr ⟨h0, hs⟩
    · exact absurd ⟨Nat.zero_le i, h1.2⟩ h2
    · simp only [List.mem_cons, ih (i + 1)]
      constructor
      · rintro ⟨h0, hs⟩
        exact ⟨Or.inr h0, hs⟩
      · rintro ⟨rfl | h0, hs⟩
        · exact absurd ⟨hs, h2.2⟩ h1
        · exact ⟨h0, hs⟩
    · exact ih (i + 1)

/-- A core call on an empty collection returns no flows. -/
theorem listFlowsCore_nil (flows : List CrawlFlow)
    (c start offset limit : Nat) (pred : CrawlFlow → Bool)
    (h : collectFiltered pred start flows 0 = []) :
    (listFlowsCore flows c start offset limit pred).1 = [] := by
  simp only [listFlowsCore, h]
  split
  · rfl
  · simp

/-- The cursor never decreases (core form). -/
theorem listFlowsCore_cursor_mono (flows : List CrawlFlow)
    (c start offset limit : Nat) (pred : CrawlFlow → Bool) :
    c ≤ (listFlowsCore flows c start offset limit pred).2 := by
  simp only [listFlowsCore]
  split
  · exact Nat.le_refl c
  · cases hl : (if 0 < limit ∧
        limit < (if 0 < offset then
          (collectFiltered pred start flows 0).drop offset
        else collectFiltered pred start flows 0).length then
          (if 0 < offset then
            (collectFiltered pred start flows 0).drop offset
          else collectFiltered pred start flows 0).take limit
        else
          (if 0 < offset then
            (collectFiltered pred start flows 0).drop offset
          else collectFiltered pred start flows 0)).getLast? with
    | none => simp [hl]
    | some p =>
      simp only [hl]
      split <;> omega

/-- The cursor never decreases. -/
theorem listFlows_cursor_mono (flows : List CrawlFlow) (lastIdx : Nat)
    (opts : CrawlListOptions) :
    lastIdx ≤ (listFlows flows lastIdx opts).2 :=
  listFlowsCore_cursor_mono flows lastIdx _ opts.offset opts.limit opts.pred

/-- A second unlimited `Since="last"` call right after a first one (no
flows committed in between) returns nothing (core form). -/
theorem listFlowsCore_last_twice_empty (flows : List CrawlFlow)
    (c offset : Nat) (pred : CrawlFlow → Bool) :
    (listFlowsCore flows (listFlowsCore flows c c offset 0 pred).2
      (listFlowsCore flows c c offset 0 pred).2 offset 0 pred).1 = [] := by
  by_cases hA : 0 < offset ∧ (collectFiltered pred c flows 0).length ≤ offset
  · have h1 : listFlowsCore flows c c offset 0 pred = ([], c) := by
      simp only [listFlowsCore]
      rw [if_pos hA]
    rw [h1]
    simp only [listFlowsCore]
    rw [if_pos hA]
  · have hlim : ¬ (0 < 0 ∧
        0 < (if 0 < offset then (collectFiltered pred c flows 0).drop offset
             else collectFiltered pred c flows 0).length) :=
      fun hc => Nat.lt_irrefl 0 hc.1
    have h1 : listFlowsCore flows c c offset 0 pred =
        (((if 0 < offset then (collectFiltered pred c flows 0).drop offset
           else collectFiltered pred c flows 0)).map (·.2),
         match (if 0 < offset then
             (collectFiltered pred c flows 0).drop offset
           else collectFiltered pred c flows 0).getLast? with
         | some p => if c < p.1 + 1 then p.1 + 1 else c
         | none => c) := by
      simp only [listFlowsCore]
      rw [if_neg hA]
      simp only [if_neg hlim]
    cases hlast : (if 0 < offset then
        (collectFiltered pred c flows 0).drop offset
      else collectFiltered pred c flows 0).getLast? with
    | none =>
      have hF2nil : (if 0 < offset then
          (collectFiltered pred c flows 0).drop offset
        else collectFiltered pred c flows 0) = [] :=
        List.getLast?_eq_none_iff.mp hlast
      have hoff : ¬ 0 < offset := by
        intro ho
        rw [if_pos ho] at hF2nil
        exact hA ⟨ho, List.drop_eq_nil_iff.mp hF2nil⟩
      rw [if_neg hoff] at hF2nil
      have h2 : (listFlowsCore flows c c offset 0 pred).2 = c := by
        rw [h1, hlast]
      rw [h2]
      exact listFlowsCore_nil flows c c offset 0 pred hF2nil
    | some p =>
      have hgetF : (collectFiltered pred c flows 0).getLast? = some p := by
        by_cases ho : 0 < offset
        · rw [if_pos ho] at hlast
          have hlen : offset < (collectFiltered pred c flows 0).length := by
            by_contra hcon
            exact hA ⟨ho, by omega⟩
          rw [← getLast?_drop_of_lt (collectFiltered pred c flows 0) offset
            hlen]
          exact hlast
        · rw [if_neg ho] at hlast
          exact hlast
      have h2 : (listFlowsCore flows c c offset 0 pred).2 =
          (if c < p.1 + 1 then p.1 + 1 else c) := by
        rw [h1, hlast]
      have hbig : ∀ q, q ∈ collectFiltered pred 0 flows 0 →
          q.1 < (if c < p.1 + 1 then p.1 + 1 else c) := by
        intro q hq
        by_cases hqc : c ≤ q.1
        · have hqF : q ∈ collectFiltered pred c flows 0 :=
            (collectFiltered_mem_iff pred c flows 0 q).mpr ⟨hq, hqc⟩
          have := mem_le_getLast_of_pairwise
            (collectFiltered pred c flows 0)
            (collectFiltered_pairwise pred c flows 0) q hqF p hgetF
          split <;> omega
        · split <;> omega
      rw [h2]
      exact listFlowsCore_nil flows _ _ offset 0 pred
        (collectFiltered_eq_nil pred flows _ hbig)

/-- C5 counterexample: with a `Limit`, two consecutive
`ListFlows(Since="last")` calls with no flows committed in between
paginate — the second call returns the next flow, not an empty result,
so the claimed idempotence does not hold for every option record. -/
theorem listFlows_since_last_counterexample :
    (listFlows [flowA, flowB] 0 limitOneOpts).1 = [flowA]
    ∧ (listFlows [flowA, flowB]
        (listFlows [flowA, flowB] 0 limitOneOpts).2 limitOneOpts).1
      = [flowB] := by decide

/-- C5 amended: without `Limit` truncation (`Limit = 0`), a second
`Since="last"` call right after a first one — any `Offset`, any filter
predicate, no flows committed in between — returns an empty result; and
for every option record the cursor never decreases. -/
theorem listFlows_since_last_spec (flows : List CrawlFlow)
    (c₀ offset : Nat) (pred : CrawlFlow → Bool) :
    (listFlows flows
        (listFlows flows c₀ ⟨"last", offset, 0, pred⟩).2
        ⟨"last", offset, 0, pred⟩).1 = []
    ∧ ∀ (lastIdx : Nat) (opts : CrawlListOptions),
        lastIdx ≤ (listFlows flows lastIdx opts).2 := by
  have hl : ∀ cc : Nat,
      listFlows flows cc ⟨"last", offset, 0, pred⟩
        = listFlowsCore flows cc cc offset 0 pred := fun cc => rfl
  rw [hl, hl]
  exact ⟨listFlowsCore_last_twice_empty flows c₀ offset pred,
    fun lastIdx opts => listFlows_cursor_mono flows lastIdx opts⟩

/-- When the head is not an escape pair, `replaceEscPair` keeps it. -/
theorem replaceEscPair_cons (t : Char) (rep : List Char) (x : Char)
    (s : List Char) (h : ¬ (x = '\\' ∧ s.head? = some t)) :
    replaceEscPair t rep (x :: s) = x :: replaceEscPair t rep s := by
  cases s with
  | nil => rfl
  | cons b s' =>
    have hcond : ¬ (x = '\\' ∧ b = t) := by
      intro hc
      exact h ⟨hc.1, by rw [hc.2]; rfl⟩
    simp only [replaceEscPair, if_neg hcond]

/-- A quoted string never starts with a bare `*`. -/
theorem quoteMeta_head_ne_star (s : List Char) :
    (quoteMeta s).head? ≠ some '*' := by
  cases s with
  | nil => simp [quoteMeta]
  | cons c rest =>
    simp only [quoteMeta]
    by_cases h : isRegexSpecial c = true
    · rw [if_pos h]
      simp
    · rw [if_neg h]
      intro hc
      simp at hc
      subst hc
      exact h (by decide)

/-- After the star stage, a transformed string never starts with `?`. -/
theorem blockStar_flat_head_ne (s : List Char) :
    (s.flatMap blockStar).head? ≠ some '?' := by
  cases s with
  | nil => simp
  | cons c rest =>
    simp only [List.flatMap_cons, blockStar]
    by_cases h1 : c = '*'
    · rw [if_pos h1]
      simp
    · rw [if_neg h1]
      by_cases h2 : isRegexSpecial c = true
      · rw [if_pos h2]
        simp
      · rw [if_neg h2]
        intro hc
        simp at hc
        subst hc
        exact h2 (by decide)

/-- A fully transformed string never starts with `*`. -/
theorem blockFull_flat_head_ne (s : List Char) :
    (s.flatMap blockFull).head? ≠ some '*' := by
  cases s with
  | nil => simp
  | cons c rest =>
    simp only [List.flatMap_cons, blockFull]
    by_cases h1 : c = '*'
    · rw [if_pos h1]
      simp
    · rw [if_neg h1]
      by_cases h0 : c = '?'
      · rw [if_pos h0]
        simp
      · rw [if_neg h0]
        by_cases h2 : isRegexSpecial c = true
        · rw [if_pos h2]
          simp
        · rw [if_neg h2]
          intro hc
          simp at hc
          subst hc
          exact h1 rfl

/-- Dropping a leading star from a string that has none is the
identity. -/
theorem dropStar_eq_self (s : List Char) (h : s.head? ≠ some '*') :
    dropStar s = s := by
  cases s with
  | nil => rfl
  | cons c rest =>
    simp only [dropStar]
    rw [if_neg]
    intro hc
    subst hc
    exact h rfl

/-- Stage one: replacing `\*` by `.*` in a quoted glob acts block by
block. -/
theorem replaceStar_quoteMeta (p : List Char) :
    replaceEscPair '*' ['.', '*'] (quoteMeta p) = p.flatMap blockStar := by
  induction p with
  | nil => rfl
  | cons c rest ih =>
    simp only [quoteMeta, List.flatMap_cons, blockStar]
    by_cases h1 : c = '*'
    · subst h1
      rw [if_pos (by decide : isRegexSpecial '*' = true), if_pos rfl]
      simp only [List.cons_append, List.nil_append]
      show replaceEscPair '*' ['.', '*'] ('\\' :: '*' :: quoteMeta rest) = _
      simp only [replaceEscPair, ih]
      simp
    · rw [if_neg h1]
      by_cases h2 : isRegexSpecial c = true
      · rw [if_pos h2]
        simp only [List.cons_append, List.nil_append]
        have hne : ¬ ('\\' = '\\' ∧ (c :: quoteMeta rest).head? = some '*') := by
          rintro ⟨-, hc⟩
          simp at hc
          exact h1 hc
        rw [replaceEscPair_cons '*' ['.', '*'] '\\' (c :: quoteMeta rest) hne]
        have hne2 : ¬ (c = '\\' ∧ (quoteMeta rest).head? = some '*') := by
          rintro ⟨-, hc⟩
          exact quoteMeta_head_ne_star rest hc
        rw [replaceEscPair_cons '*' ['.', '*'] c (quoteMeta rest) hne2, ih]
      · rw [if_neg h2]
        simp only [List.cons_append, List.nil_append]
        have hcbs : ¬ c = '\\' := by
          intro hc
          subst hc
          exact h2 (by decide)
        have hne : ¬ (c = '\\' ∧ (quoteMeta rest).head? = some '*') :=
          fun hc => hcbs hc.1
        rw [replaceEscPair_cons '*' ['.', '*'] c (quoteMeta rest) hne, ih]

/-- Stage two: replacing `\?` by `.` after the star stage acts block by
block. -/
theorem replaceQuestion_blockStar (p : List Char) :
    replaceEscPair '?' ['.'] (p.flatMap blockStar) = p.flatMap blockFull := by
  induction p with
  | nil => rfl
  | cons c rest ih =>
    simp only [List.flatMap_cons, blockStar, blockFull]
    by_cases h1 : c = '*'
    · subst h1
      rw [if_pos rfl, if_pos rfl]
      simp only [List.cons_append, List.nil_append]
      have hne1 : ¬ ('.' = '\\' ∧
          ('*' :: rest.flatMap blockStar).head? = some '?') :=
        fun hc => by cases hc.1
      rw [replaceEscPair_cons '?' ['.'] '.'
        ('*' :: rest.flatMap blockStar) hne1]
      have hne2 : ¬ ('*' = '\\' ∧
          (rest.flatMap blockStar).head? = some '?') :=
        fun hc => by cases hc.1
      rw [replaceEscPair_cons '?' ['.'] '*' (rest.flatMap blockStar) hne2,
        ih]
    · rw [if_neg h1]
      by_cases h0 : c = '?'
      · subst h0
        rw [if_pos (by decide : isRegexSpecial '?' = true), if_pos rfl]
        simp only [List.cons_append, List.nil_append]
        show replaceEscPair '?' ['.']
            ('\\' :: '?' :: rest.flatMap blockStar) = _
        simp only [replaceEscPair, ih]
        simp
      · rw [if_neg h0]
        by_cases h2 : isRegexSpecial c = true
        · rw [if_pos h2]
          simp only [List.cons_append, List.nil_append]
          have hne : ¬ ('\\' = '\\' ∧
              (c :: rest.flatMap blockStar).head? = some '?') := by
            rintro ⟨-, hc⟩
            simp at hc
            exact h0 hc
          rw [replaceEscPair_cons '?' ['.'] '\\'
            (c :: rest.flatMap blockStar) hne]
          have hne2 : ¬ (c = '\\' ∧
              (rest.flatMap blockStar).head? = some '?') := by
            rintro ⟨-, hc⟩
            exact blockStar_flat_head_ne rest hc
          rw [replaceEscPair_cons '?' ['.'] c (rest.flatMap blockStar) hne2,
            ih]
          rw [if_neg h1]
          rfl
        · rw [if_neg h2]
          simp only [List.cons_append, List.nil_append]
          have hcbs : ¬ c = '\\' := by
            intro hc
            subst hc
            exact h2 (by decide)
          have hne : ¬ (c = '\\' ∧
              (rest.flatMap blockStar).head? = some '?') :=
            fun hc => hcbs hc.1
          rw [replaceEscPair_cons '?' ['.'] c (rest.flatMap blockStar) hne,
            ih]
          rw [if_neg h1]
          rfl

/-- The glob transformation, characterised block by block. -/
theorem transformGlob_eq_flatMap (p : List Char) :
    transformGlob p = p.flatMap blockFull := by
  rw [transformGlob, replaceStar_quoteMeta, replaceQuestion_blockStar]

/-- One-step unfolding of `regexOk` on a cons cell. -/
theorem regexOk_cons (a : Char) (rest : List Char) :
    regexOk (a :: rest) =
      (if a = '\\' then
        match rest with
        | [] => false
        | c :: rest2 => isRegexSpecial c && regexOk (dropStar rest2)
      else (a = '.' || !isRegexSpecial a) && regexOk (dropStar rest)) := by
  rw [regexOk.eq_def]

/-- Every fully transformed glob is accepted by the regex
sublanguage. -/
theorem regexOk_flatMap (s : List Char) :
    regexOk (s.flatMap blockFull) = true := by
  induction s with
  | nil =>
    rw [List.flatMap_nil, regexOk.eq_def]
  | cons c rest ih =>
    have hhead := blockFull_flat_head_ne rest
    simp only [List.flatMap_cons, blockFull]
    by_cases h1 : c = '*'
    · rw [if_pos h1]
      show regexOk ('.' :: '*' :: rest.flatMap blockFull) = true
      rw [regexOk_cons, if_neg (by decide : ¬ ('.' : Char) = '\\')]
      have hds : dropStar ('*' :: rest.flatMap blockFull)
          = rest.flatMap blockFull := by
        simp [dropStar]
      rw [hds, ih]
      decide
    · rw [if_neg h1]
      by_cases h0 : c = '?'
      · rw [if_pos h0]
        show regexOk ('.' :: rest.flatMap blockFull) = true
        rw [regexOk_cons, if_neg (by decide : ¬ ('.' : Char) = '\\'),
          dropStar_eq_self _ hhead, ih]
        decide
      · rw [if_neg h0]
        by_cases h2 : isRegexSpecial c = true
        · rw [if_pos h2]
          show regexOk ('\\' :: c :: rest.flatMap blockFull) = true
          rw [regexOk_cons, if_pos rfl]
          show (isRegexSpecial c
              && regexOk (dropStar (rest.flatMap blockFull))) = true
          rw [dropStar_eq_self _ hhead, ih, h2]
          rfl
        · rw [if_neg h2]
          show regexOk (c :: rest.flatMap blockFull) = true
          have hcb : ¬ c = '\\' := fun hc => h2 (hc ▸ (by decide))
          rw [regexOk_cons, if_neg hcb, dropStar_eq_self _ hhead, ih]
          simp [h2]

/-- C10: `globsToRegexes` yields exactly one compiled regex per input
pattern — every transformed glob (QuoteMeta, then `\*` → `.*`,
`\?` → `.`) lies in the valid sublanguage `regexOk`, so the
`regexp.Compile` error branch is unreachable and no configured pattern
is silently dropped. -/
theorem globsToRegexes_total (patterns : List (List Char)) :
    (globsToRegexes patterns).length = patterns.length
    ∧ ∀ p ∈ patterns, regexOk (transformGlob p) = true := by
  have hok : ∀ p : List Char, regexOk (transformGlob p) = true := by
    intro p
    rw [transformGlob_eq_flatMap]
    exact regexOk_flatMap p
  refine ⟨?_, fun p _ => hok p⟩
  induction patterns with
  | nil => rfl
  | cons p ps ih =>
    simp only [globsToRegexes] at ih ⊢
    rw [List.filterMap_cons, hok p]
    simp [ih]

/-- C3: on the content-type-filtered terminal path the `OnResponse`
callback returns before `LoadAndDelete`, so the correlation entry stays
in the capture store, contradicting the claim that every terminal path
removes it; on the successful and transport-error paths the entry is
removed as claimed. -/
theorem captureStore_leak_on_filtered_response :
    (onResponse sessEx "s" filteredCtx "fid" 0).captureStore
        = [("cap1", capEx)]
    ∧ lookupCapture (onResponse sessEx "s" filteredCtx "fid" 0).captureStore
        "cap1" = some capEx
    ∧ (onResponse sessEx "s" { filteredCtx with contentType := "text/html" }
        "fid" 0).captureStore = []
    ∧ (onError sessEx "cap1" "http://h/x.png" "context canceled" 0).captureStore
        = [] := by decide

/-- C7 counterexample: with all-zero options and config defaults
`DefaultMaxDepth = 7`, `DefaultMaxRequests = 9`, the session runs with
collector max depth 0 (unlimited) and request cap 0 (unlimited): those
two config defaults are never applied, contrary to the claim that every
zero option field falls back to its config default. -/
theorem applyDefaults_counterexample :
    (effectiveSettings cfgEx optsZero).collectorMaxDepth = 0
    ∧ cfgEx.defaultMaxDepth = 7
    ∧ (effectiveSettings cfgEx optsZero).maxRequests = 0
    ∧ cfgEx.defaultMaxRequests = 9 := by decide

/-- C7 amended: `CreateSession` applies the config defaults for
`DisallowedPaths`, `Delay`, `Parallelism` and `ExtractForms` when the
option field is zero, empty or absent; `MaxDepth` and `MaxRequests` come
from the options alone (zero meaning unlimited), and the config's
`DefaultMaxDepth` and `DefaultMaxRequests` are never consulted. -/
theorem applyDefaults_spec (cfg : CrawlerConfig) (opts : CrawlOptions)
    (h1 : opts.disallowedPaths = []) (h2 : opts.delayMS = 0)
    (h3 : opts.parallelism = 0) (h4 : opts.extractForms = none)
    (h5 : opts.maxDepth = 0) :
    effectiveSettings cfg opts =
      { disallowedPaths := cfg.defaultDisallowedPaths
        delayMS := cfg.defaultDelayMS
        parallelism := cfg.defaultParallelism
        collectorMaxDepth := 0
        maxRequests := opts.maxRequests
        extractForms := cfg.defaultExtractForms.getD true } := by
  simp only [effectiveSettings, h1, h2, h3, h4, h5, if_pos rfl]
  cases cfg.defaultExtractForms <;> simp

/-- C7 amended witness: the all-zero options under `cfgEx`. -/
theorem applyDefaults_spec_witness :
    effectiveSettings cfgEx optsZero =
      { disallowedPaths := ["/logout*"], delayMS := 100, parallelism := 4
        collectorMaxDepth := 0, maxRequests := 0, extractForms := true } :=
  applyDefaults_spec cfgEx optsZero rfl rfl rfl rfl rfl

/-- C8 counterexample: after `Close`, `AddSeeds` on a still-registered
running session succeeds (`Close` neither deletes sessions nor flips
their states, and `AddSeeds` never reads the closed flag), so it does
not return the `backend_closed` error the claim promises. -/
theorem addSeeds_after_close_counterexample :
    (closeBackend backendEx).closed = true
    ∧ addSeeds (closeBackend backendEx) "s1" = .ok ()
    ∧ addSeeds (closeBackend backendEx) "s1"
        ≠ .error BackendError.backendClosed := by
  have h : addSeeds (closeBackend backendEx) "s1" = .ok () := rfl
  exact ⟨rfl, h, by rw [h]; simp⟩

/-- C8 amended: after `Close`, `CreateSession` does return
`backend_closed` for every option record, but `AddSeeds` never returns
`backend_closed` for any session identifier: it answers session-not-found,
session-not-running, or proceeds. -/
theorem backend_closed_spec (b : BackendModel) (opts : CrawlOptions)
    (sid : String) (hc : b.closed = true) :
    createSessionChecked b opts = .error .backendClosed
    ∧ addSeeds b sid ≠ .error BackendError.backendClosed := by
  constructor
  · simp [createSessionChecked, hc]
  · unfold addSeeds
    cases h : resolveSession b sid with
    | none => simp
    | some sess =>
      by_cases hs : sess.state ≠ CrawlState.running
      · simp [hs]
      · simp [hs]

/-- C8 amended witness: the closed backend `closeBackend backendEx` and
the running session `s1`. -/
theorem backend_closed_spec_witness :
    createSessionChecked (closeBackend backendEx) optsZero
        = .error .backendClosed
    ∧ addSeeds (closeBackend backendEx) "s1"
        ≠ .error BackendError.backendClosed :=
  backend_closed_spec (closeBackend backendEx) optsZero "s1" rfl

/-- C9: every reflection `findReflections` returns carries a value
longer than 3 characters (parameters with value length ≤ 3 are skipped
and so never appear, since results keep the parameter's value), and the
result is sorted ascending by `(Source, Name)`. -/
theorem findReflections_spec (params : List Reflection) (resp : RespModel) :
    (∀ r ∈ findReflections params resp, 3 < r.value.length)
    ∧ List.Sorted reflLe (findReflections params resp) := by
  constructor
  · intro r hr
    simp only [findReflections] at hr
    have hmem := (List.perm_insertionSort reflLe _).mem_iff.mp hr
    obtain ⟨p, _, hf⟩ := List.mem_filterMap.mp hmem
    by_cases h3 : p.value.length ≤ 3
    · rw [if_pos h3] at hf
      exact absurd hf (by simp)
    · rw [if_neg h3] at hf
      by_cases hl : (reflectionLocations p.value resp).isEmpty
      · rw [if_pos hl] at hf
        exact absurd hf (by simp)
      · rw [if_neg hl] at hf
        have hpr := Option.some.inj hf
        rw [← hpr]
        show 3 < p.value.length
        omega
  · simp only [findReflections]
    exact List.sorted_insertionSort reflLe _

/-- C9 witness: a concrete run — the short values are dropped and the
remaining reflections come out sorted by source then name. -/
theorem findReflections_spec_witness :
    3 < ("abcd" : String).length
    ∧ ((∀ r ∈ findReflections
          [{ name := "z", source := "query", value := "abcd"
             locations := [] },
           { name := "a", source := "query", value := "ab", locations := [] }]
          { headers := [], body := "xx abcd yy" },
        3 < r.value.length)
    ∧ List.Sorted reflLe (findReflections
          [{ name := "z", source := "query", value := "abcd"
             locations := [] },
           { name := "a", source := "query", value := "ab", locations := [] }]
          { headers := [], body := "xx abcd yy" })) :=
  ⟨by decide,
   findReflections_spec
     [{ name := "z", source := "query", value := "abcd", locations := [] },
      { name := "a", source := "query", value := "ab", locations := [] }]
     { headers := [], body := "xx abcd yy" }⟩

/-- C6 counterexample: the claim says the response content-type filter
rejects `text/css`, but `isAllowedContentType` accepts it, because
`text/css` has the allow-listed prefix `text/` (this also contradicts the
claim's own general rule).  `image/png` is shown rejected alongside, so
the accepting result is not vacuous. -/
theorem isAllowedContentType_css_counterexample :
    isAllowedContentType "text/css" = true
    ∧ isAllowedContentType "image/png" = false := by decide

/-- C6 amended: the filter accepts `text/css` (prefix `text/`),
`application/json` and the empty content type, and in general accepts
exactly the empty type and the types whose lowercasing extends one of the
five allow-listed prefixes. -/
theorem isAllowedContentType_spec :
    isAllowedContentType "text/css" = true
    ∧ isAllowedContentType "application/json" = true
    ∧ isAllowedContentType "" = true
    ∧ ∀ ct : String, isAllowedContentType ct = true ↔
        (ct = "" ∨ ∃ p ∈ allowedContentTypes,
          ∃ rest : List Char, p.data ++ rest = (lowerStr ct).data) := by
  refine ⟨by decide, by decide, by decide, fun ct => ?_⟩
  by_cases h : ct = ""
  · simp [isAllowedContentType, h]
  · simp only [isAllowedContentType, if_neg h, List.any_eq_true]
    constructor
    · rintro ⟨p, hp, hpref⟩
      exact Or.inr ⟨p, hp, List.isPrefixOf_iff_prefix.mp hpref⟩
    · rintro (h' | ⟨p, hp, hpref⟩)
      · exact absurd h' h
      · exact ⟨p, hp, List.isPrefixOf_iff_prefix.mpr hpref⟩

end Crawler
